import Mathlib

/-!
Shallow embedding of the `cpp_toybox_old` asynchronous HTTP request
multiplexer, faithful to the C++ sources:

* `src/unnamed/part_001` — the handle-based transaction registry client
  (`HttpTransaction`, `HttpTransactionHandle`, `HttpClient` with
  `AddRequest` / `Update` / `IsCompleted` / `ReleaseTransaction`).
* `src/httpclient/main.cpp` — the earlier variant whose `_CreateHandle`
  uses a retry loop over `atomic_exchange` (namespace `HC` below).
* `src/RequestAndUpdate/main.cpp` — the double-buffered request queue
  (`RequestUpdate` below).

Machine integers (`unsigned int` handle ids) are modelled as `Nat` with
explicit reduction modulo `2 ^ 32` at the points where the C++ code can
overflow.  The libcurl transfer engine is external: its observable
interactions (write-callback data chunks delivered by
`curl_multi_perform`, and finished messages drained by
`curl_multi_info_read`) are passed to `Update` as explicit event lists.
Callbacks (`std::function` values) are modelled by recording every
invocation in a per-transaction log, which is the only effect the
specification's claims observe.
-/

/-- Outcome codes of the transfer engine, the subset of `CURLcode` the
program distinguishes: `CURLE_OK`, `CURLE_OPERATION_TIMEDOUT`, any other
transport error (carrying the raw code), and the `CURL_LAST` sentinel
which the source uses as its "no result yet" marker (part_001 line 57:
there was no invalid value, so `CURL_LAST` is used as one).  The engine
itself never reports `CURL_LAST` as a transfer result. -/
inductive CURLcode where
  | ok
  | timedout
  | err (code : Nat)
  | last
deriving DecidableEq

/-- State of one `HttpTransaction` (part_001 lines 46-93).  `m_Curl`, the
owned libcurl easy session, is modelled by the identifier `session`;
`m_Callback` is modelled by `callbackLog`, the list of invocations the
stored callback has received so far, each recording the
`m_RequestResult` visible to the callback at that invocation together
with the size of the data passed. -/
structure HttpTransaction where
  session : Nat
  completed : Bool
  requestResult : CURLcode
  callbackLog : List (CURLcode × Nat)
deriving DecidableEq

/-- Constructor `HttpTransaction(callback)` (part_001 lines 53-60):
`m_Completed = false`, `m_RequestResult = CURL_LAST`, and a fresh curl
easy session from `curl_easy_init`. -/
def HttpTransaction.create (sess : Nat) : HttpTransaction :=
  { session := sess, completed := false, requestResult := CURLcode.last, callbackLog := [] }

/-- Line 73 of `HttpTransaction::OnResponse`: `m_RequestResult = result`. -/
def HttpTransaction.setRequestResult (t : HttpTransaction) (result : CURLcode) : HttpTransaction :=
  { t with requestResult := result }

/-- Line 75 of `HttpTransaction::OnResponse`: `m_Callback(*this, data, dataSize)`.
The invocation is logged with the `m_RequestResult` the callback observes
on `*this` at that moment, and the data size it receives. -/
def HttpTransaction.invokeCallback (t : HttpTransaction) (dataSize : Nat) : HttpTransaction :=
  { t with callbackLog := t.callbackLog ++ [(t.requestResult, dataSize)] }

/-- Line 77 of `HttpTransaction::OnResponse`: `m_Completed = true`. -/
def HttpTransaction.setCompleted (t : HttpTransaction) : HttpTransaction :=
  { t with completed := true }

/-- `HttpTransaction::OnResponse` (part_001 lines 71-78): store the result,
invoke the stored callback, then flip `m_Completed` — in that order. -/
def HttpTransaction.OnResponse (t : HttpTransaction) (dataSize : Nat) (result : CURLcode) :
    HttpTransaction :=
  ((t.setRequestResult result).invokeCallback dataSize).setCompleted

/-- `HttpTransaction::IsCompleted` (part_001 line 81):
`return m_RequestResult != CURL_LAST;` (note: not `m_Completed`). -/
def HttpTransaction.IsCompleted (t : HttpTransaction) : Bool :=
  t.requestResult != CURLcode.last

/-- `HttpTransaction::IsOk` (part_001 line 83). -/
def HttpTransaction.IsOk (t : HttpTransaction) : Bool :=
  t.requestResult == CURLcode.ok

/-- `HttpTransaction::IsTimeout` (part_001 line 85). -/
def HttpTransaction.IsTimeout (t : HttpTransaction) : Bool :=
  t.requestResult == CURLcode.timedout

/-- `HttpTransactionHandle::INVALID_HANDLE_ID = UINT32_MAX`
(part_001 lines 138-139). -/
def HttpTransactionHandle.INVALID_HANDLE_ID : Nat := 4294967295

/-- Lookup in `std::map<HandleId, HttpTransaction*> m_Handles`
(`m_Handles.find(handle)`), over the map's entry list. -/
def mapFind (k : Nat) : List (Nat × HttpTransaction) → Option HttpTransaction
  | [] => none
  | (k', v) :: rest => if k' = k then some v else mapFind k rest

/-- Assignment `m_Handles[handle] = transaction` on the `std::map`: the
entry list is kept in ascending key order, and an existing binding for
the key is replaced. -/
def mapInsert (k : Nat) (v : HttpTransaction) :
    List (Nat × HttpTransaction) → List (Nat × HttpTransaction)
  | [] => [(k, v)]
  | (k', v') :: rest =>
    if k < k' then (k, v) :: (k', v') :: rest
    else if k = k' then (k, v) :: rest
    else (k', v') :: mapInsert k v rest

/-- `m_Handles.erase(handle)`: removes the binding for the key (a
`std::map` holds at most one). -/
def mapErase (k : Nat) (l : List (Nat × HttpTransaction)) : List (Nat × HttpTransaction) :=
  l.filter (fun p => p.1 != k)

/-- Application of `OnResponse dataSize result` to the first registry entry
whose transaction owns curl session `sess`.  This is how both delivery
paths address a transaction: the write callback through the
`CURLOPT_WRITEDATA` pointer of the session that received data, and the
`Update` drain loop through `find_if` comparing `GetCurl()` against
`msg->easy_handle` (part_001 lines 212-221). -/
def recordFirst (sess dataSize : Nat) (result : CURLcode) :
    List (Nat × HttpTransaction) → List (Nat × HttpTransaction)
  | [] => []
  | (k, t) :: rest =>
    if t.session = sess then (k, t.OnResponse dataSize result) :: rest
    else (k, t) :: recordFirst sess dataSize result rest

/-- State of the part_001 `HttpClient` together with the static allocator
counter `s_TopHandleId` and a source of fresh curl easy sessions
(`curl_easy_init`).  `m_MultiHandle` itself is external engine state and
carries no information the claims observe. -/
structure ClientState where
  counter : Nat
  nextSession : Nat
  handles : List (Nat × HttpTransaction)
deriving DecidableEq

/-- Freshly constructed `HttpClient` with the static counter at its
initializer value `0U` (part_001 line 339). -/
def ClientState.init : ClientState :=
  { counter := 0, nextSession := 0, handles := [] }

namespace HttpClient

/-- `HttpClient::_CreateHandle` (part_001 lines 307-311):
`atomic_fetch_add(&s_TopHandleId, 1)` — a 32-bit unsigned increment,
hence modulo `2 ^ 32` — then `return s_TopHandleId`, i.e. the
post-increment value.  Returns the handle and the new counter. -/
def createHandle (counter : Nat) : Nat × Nat :=
  ((counter + 1) % 2 ^ 32, (counter + 1) % 2 ^ 32)

/-- `HttpClient::AddRequest` (part_001 lines 230-263): construct a
transaction owning a fresh session, configure and register the session
with the engine (external effects), allocate a handle, store
`m_Handles[handle] = transaction`, and return the handle.  The request
descriptor only configures the external engine (URL, method, POST
fields, timeout) and does not influence the registry state, so it is not
carried here. -/
def AddRequest (s : ClientState) : Nat × ClientState :=
  let t := HttpTransaction.create s.nextSession
  let hc := createHandle s.counter
  (hc.1,
    { counter := hc.2
      nextSession := s.nextSession + 1
      handles := mapInsert hc.1 t s.handles })

/-- One write-callback delivery `HttpClient::_OnResponse` (part_001 lines
298-304) during `curl_multi_perform`: the transaction registered as
`CURLOPT_WRITEDATA` for session `sess` receives a data chunk of
`dataSize` bytes and `OnResponse(ptr, dataSize, CURLE_OK)` runs on it. -/
def deliverChunk (s : ClientState) (sess dataSize : Nat) : ClientState :=
  { s with handles := recordFirst sess dataSize CURLcode.ok s.handles }

/-- One drained `CURLMsg` in the `Update` message loop (part_001 lines
203-227): a success result is discarded ("成功なのでそのまま"); otherwise the
registry is searched by `find_if` for the transaction owning the
session, and `OnResponse(nullptr, 0, msg->data.result)` runs on the
first match; a missing entry is silently skipped (the `@todo` branch). -/
def drainMsg (s : ClientState) (sess : Nat) (result : CURLcode) : ClientState :=
  if result = CURLcode.ok then s
  else { s with handles := recordFirst sess 0 result s.handles }

/-- `HttpClient::Update` (part_001 lines 197-228): `curl_multi_perform`
advances all sessions, invoking the write callback once per available
data chunk (`chunks`, in delivery order), then `curl_multi_info_read`
drains the finished messages (`msgs`). -/
def Update (s : ClientState) (chunks : List (Nat × Nat)) (msgs : List (Nat × CURLcode)) :
    ClientState :=
  let s1 := chunks.foldl (fun acc c => deliverChunk acc c.1 c.2) s
  msgs.foldl (fun acc m => drainMsg acc m.1 m.2) s1

/-- `HttpClient::IsCompleted` (part_001 lines 266-278): a registered
transaction answers `HttpTransaction::IsCompleted`; an unknown handle is
reported as completed ("存在しないハンドルなので、既に終了して削除されている可能性がある"). -/
def IsCompleted (s : ClientState) (h : Nat) : Bool :=
  match mapFind h s.handles with
  | some t => t.IsCompleted
  | none => true

/-- `HttpClient::ReleaseTransaction` (part_001 lines 280-294): if the
handle resolves, erase the binding and destroy the transaction,
returning `true`; otherwise return `false` and leave the registry
untouched. -/
def ReleaseTransaction (s : ClientState) (h : Nat) : Bool × ClientState :=
  match mapFind h s.handles with
  | some _ => (true, { s with handles := mapErase h s.handles })
  | none => (false, s)

/-- Iterated `AddRequest`, returning the final state and the issued
handles in call order: the N producer submissions of the test driver
(part_001 lines 349-371), serialized as they are by `s_mutex`. -/
def runAdds : Nat → ClientState → ClientState × List Nat
  | 0, s => (s, [])
  | n + 1, s =>
    let hs := AddRequest s
    let rec' := runAdds n hs.2
    (rec'.1, hs.1 :: rec'.2)

end HttpClient

/-- Events a whole run of the system can perform against one client:
a producer thread's `AddRequest`, a data-chunk delivery to the session's
write callback during `Update`, a drained finished message during
`Update`, and `ReleaseTransaction` from any thread.  The operations are
serialized by `s_mutex` / the single driver thread, so a run is a
sequence of these. -/
inductive Op where
  | addReq
  | chunk (sess dataSize : Nat)
  | msg (sess : Nat) (result : CURLcode)
  | release (h : Nat)
deriving DecidableEq

/-- Engine contract on events: libcurl never reports `CURL_LAST` as a
transfer result (it is the code's own "pending" sentinel). -/
def ValidOp : Op → Prop
  | Op.msg _ result => result ≠ CURLcode.last
  | _ => True

instance : DecidablePred ValidOp := by
  intro op
  cases op <;> simp [ValidOp] <;> infer_instance

/-- Effect of one event on the client state. -/
def stepOp (s : ClientState) : Op → ClientState
  | Op.addReq => (HttpClient.AddRequest s).2
  | Op.chunk sess dataSize => HttpClient.deliverChunk s sess dataSize
  | Op.msg sess result => HttpClient.drainMsg s sess result
  | Op.release h => (HttpClient.ReleaseTransaction s h).2

/-- A run: the state after a sequence of events. -/
def runOps (s : ClientState) (ops : List Op) : ClientState :=
  ops.foldl stepOp s

/-- Handle that the next `AddRequest` will issue from state `s`. -/
def handleIssued (s : ClientState) : Nat :=
  (s.counter + 1) % 2 ^ 32

/-- Session of the transaction registered under handle `h`, if any. -/
def sessionAt (s : ClientState) (h : Nat) : Option Nat :=
  (mapFind h s.handles).map HttpTransaction.session

namespace HC

/-- Wrap bound of the allocator in `src/httpclient/main.cpp` line 224:
`dst = (dst + 1) % 0xffffffff` ("オーバーフロー対策. 適当な数で折り返すように"). -/
def wrapBound : Nat := 4294967295

/-- One execution of the retry loop body of `HttpClient::_CreateHandle`
(`src/httpclient/main.cpp` lines 218-229), with explicit fuel:
`dst = m_Lock; dst = (dst + 1) % 0xffffffff;` then
`atomic_exchange(&m_Lock, dst)` returns the previous counter value and
the loop repeats while that previous value is nonzero.  Returns the
handle `dst` and the final counter, or `none` if the fuel runs out. -/
def createHandleLoop : Nat → Nat → Option (Nat × Nat)
  | 0, _ => none
  | fuel + 1, lock =>
    let dst := (lock + 1) % wrapBound
    if lock = 0 then some (dst, dst)
    else createHandleLoop fuel dst

/-- State of the `src/httpclient/main.cpp` client: the static counter
`m_Lock`, a fresh-session source, and `m_Handles`. -/
structure State where
  lock : Nat
  nextSession : Nat
  handles : List (Nat × HttpTransaction)
deriving DecidableEq

/-- Freshly constructed client with `m_Lock` at its initializer `0U`
(`src/httpclient/main.cpp` line 254). -/
def State.init : State :=
  { lock := 0, nextSession := 0, handles := [] }

/-- `HttpClient::AddRequest` of `src/httpclient/main.cpp` (lines 160-174):
construct the transaction, register its session with the engine, obtain
a handle from `_CreateHandle`, store it, and return it.  `none` exactly
when the allocator's retry loop fails to finish within the given fuel. -/
def AddRequest (fuel : Nat) (s : State) : Option (Nat × State) :=
  match createHandleLoop fuel s.lock with
  | none => none
  | some (h, lock') =>
    some (h,
      { lock := lock'
        nextSession := s.nextSession + 1
        handles := mapInsert h (HttpTransaction.create s.nextSession) s.handles })

end HC

/-- Double-buffered request queue `RequestUpdate`
(`src/RequestAndUpdate/main.cpp` lines 66-133): `m_Requests` points to
the buffer producers append to, `m_UpdatingRequests` to the buffer the
driver is processing (cleared at the end of each `Update`). -/
structure RequestUpdate (α : Type) where
  requests : List α
  updatingRequests : List α
deriving DecidableEq

namespace RequestUpdate

/-- Constructor (lines 76-80): both buffers empty, `m_Requests` pointing
at the first and `m_UpdatingRequests` at the second. -/
def init : RequestUpdate α :=
  { requests := [], updatingRequests := [] }

/-- `RequestUpdate::AddRequest` (lines 100-105): under the lock, append the
parameter tuple to the current add-buffer. -/
def AddRequest (s : RequestUpdate α) (a : α) : RequestUpdate α :=
  { s with requests := s.requests ++ [a] }

/-- Comparison `std::sort` is given: the registered strict sort
predicate.  The postcondition of `std::sort(first, last, pred)` is a
permutation ordered so that no later element is `pred`-before an earlier
one, i.e. sorted under the complement relation `le pred`. -/
def le (pred : α → α → Prop) (a b : α) : Prop := ¬ pred b a

instance (pred : α → α → Prop) [DecidableRel pred] : DecidableRel (le pred) := by
  intro a b
  unfold le
  infer_instance

/-- `RequestUpdate::Update` (lines 107-121): swap the two buffers under
the lock, sort the now-private batch with the registered predicate,
apply the registered executer to each element in order, and clear the
batch.  `std::sort` is modelled by insertion sort with respect to
`le pred`.  Returns the sequence of parameter tuples passed to the
executer, in application order, together with the new state. -/
def Update (pred : α → α → Prop) [DecidableRel pred] (s : RequestUpdate α) :
    List α × RequestUpdate α :=
  let batch := (s.requests).insertionSort (le pred)
  (batch, { requests := s.updatingRequests, updatingRequests := [] })

/-- Events against a `RequestUpdate`: an `AddRequest` of one parameter
tuple or an `Update` call. -/
inductive ROp (α : Type) where
  | add (a : α)
  | update

/-- State reached after a sequence of `RequestUpdate` events. -/
def runR (pred : α → α → Prop) [DecidableRel pred] (s : RequestUpdate α) :
    List (ROp α) → RequestUpdate α
  | [] => s
  | ROp.add a :: rest => runR pred (AddRequest s a) rest
  | ROp.update :: rest => runR pred (Update pred s).2 rest

end RequestUpdate

/-! ### Helper lemmas about the registry operations -/

theorem mapFind_insert_self (k : Nat) (v : HttpTransaction) (l : List (Nat × HttpTransaction)) :
    mapFind k (mapInsert k v l) = some v := by
  induction l with
  | nil => simp [mapInsert, mapFind]
  | cons p rest ih =>
    obtain ⟨k', v'⟩ := p
    by_cases h1 : k < k'
    · simp [mapInsert, h1, mapFind]
    · by_cases h2 : k = k'
      · simp [mapInsert, h1, h2, mapFind]
      · have h3 : k' ≠ k := fun he => h2 he.symm
        simp [mapInsert, h1, h2, mapFind, h3, ih]

theorem mapFind_insert_ne (k h : Nat) (v : HttpTransaction) (l : List (Nat × HttpTransaction))
    (hne : k ≠ h) : mapFind h (mapInsert k v l) = mapFind h l := by
  induction l with
  | nil => simp [mapInsert, mapFind, hne]
  | cons p rest ih =>
    obtain ⟨k', v'⟩ := p
    by_cases h1 : k < k'
    · simp [mapInsert, h1, mapFind, hne]
    · by_cases h2 : k = k'
      · subst h2
        simp [mapInsert, h1, mapFind, hne]
      · simp [mapInsert, h1, h2, mapFind, ih]

theorem mapErase_cons_self (k : Nat) (v' : HttpTransaction) (rest : List (Nat × HttpTransaction)) :
    mapErase k ((k, v') :: rest) = mapErase k rest := by
  simp [mapErase, List.filter_cons]

theorem mapErase_cons_ne (k k' : Nat) (v' : HttpTransaction) (rest : List (Nat × HttpTransaction))
    (h1 : k' ≠ k) : mapErase k ((k', v') :: rest) = (k', v') :: mapErase k rest := by
  simp [mapErase, List.filter_cons, h1]

theorem mapFind_erase_self (k : Nat) (l : List (Nat × HttpTransaction)) :
    mapFind k (mapErase k l) = none := by
  induction l with
  | nil => simp [mapErase, mapFind]
  | cons p rest ih =>
    obtain ⟨k', v'⟩ := p
    by_cases h1 : k' = k
    · subst h1
      rw [mapErase_cons_self]
      exact ih
    · rw [mapErase_cons_ne _ _ _ _ h1]
      simpa [mapFind, h1] using ih

theorem mapFind_erase_ne (k h : Nat) (l : List (Nat × HttpTransaction)) (hne : h ≠ k) :
    mapFind h (mapErase k l) = mapFind h l := by
  induction l with
  | nil => simp [mapErase, mapFind]
  | cons p rest ih =>
    obtain ⟨k', v'⟩ := p
    by_cases h1 : k' = k
    · subst h1
      have h2 : k' ≠ h := fun he => hne he.symm
      rw [mapErase_cons_self]
      simpa [mapFind, h2] using ih
    · rw [mapErase_cons_ne _ _ _ _ h1]
      by_cases h2 : k' = h
      · simp [mapFind, h2]
      · simpa [mapFind, h2] using ih

theorem mapInsert_append (k : Nat) (v : HttpTransaction) (l : List (Nat × HttpTransaction))
    (hlt : ∀ p ∈ l, p.1 < k) : mapInsert k v l = l ++ [(k, v)] := by
  induction l with
  | nil => rfl
  | cons p rest ih =>
    obtain ⟨k', v'⟩ := p
    have hk' : k' < k := hlt (k', v') (List.mem_cons_self _ _)
    have h1 : ¬ k < k' := by omega
    have h2 : ¬ k = k' := by omega
    simp only [mapInsert, if_neg h1, if_neg h2, List.cons_append]
    exact congrArg _ (ih fun p hp => hlt p (List.mem_cons_of_mem _ hp))

theorem OnResponse_requestResult (t : HttpTransaction) (sz : Nat) (code : CURLcode) :
    (t.OnResponse sz code).requestResult = code := rfl

theorem recordFirst_find (sess sz : Nat) (code : CURLcode) (l : List (Nat × HttpTransaction))
    (h : Nat) :
    mapFind h (recordFirst sess sz code l) = mapFind h l ∨
      ∃ t, mapFind h l = some t ∧ t.session = sess ∧
        mapFind h (recordFirst sess sz code l) = some (t.OnResponse sz code) := by
  induction l with
  | nil => left; rfl
  | cons p rest ih =>
    obtain ⟨k, t⟩ := p
    by_cases hs : t.session = sess
    · by_cases hk : k = h
      · right
        exact ⟨t, by simp [mapFind, hk], hs, by simp [recordFirst, hs, mapFind, hk]⟩
      · left
        simp [recordFirst, hs, mapFind, hk]
    · by_cases hk : k = h
      · left
        simp [recordFirst, hs, mapFind, hk]
      · rcases ih with hsame | ⟨t', hfind, hsess, hnew⟩
        · left
          simpa [recordFirst, hs, mapFind, hk] using hsame
        · right
          exact ⟨t', by simpa [mapFind, hk] using hfind, hsess,
            by simpa [recordFirst, hs, mapFind, hk] using hnew⟩

theorem recordFirst_of_unique (sess sz : Nat) (code : CURLcode)
    (l : List (Nat × HttpTransaction)) (h : Nat) (t : HttpTransaction)
    (huniq : l.filter (fun p => p.2.session == sess) = [(h, t)])
    (hnodup : (l.map Prod.fst).Nodup) :
    mapFind h (recordFirst sess sz code l) = some (t.OnResponse sz code) := by
  induction l with
  | nil => simp at huniq
  | cons p rest ih =>
    obtain ⟨k, v⟩ := p
    rw [List.map_cons, List.nodup_cons] at hnodup
    by_cases hs : v.session = sess
    · have hfil : List.filter (fun p => p.2.session == sess) ((k, v) :: rest)
          = (k, v) :: List.filter (fun p => p.2.session == sess) rest := by
        simp [List.filter_cons, hs]
      rw [hfil] at huniq
      have hkh : k = h ∧ v = t := by
        have := List.head_eq_of_cons_eq huniq
        exact ⟨congrArg Prod.fst this, congrArg Prod.snd this⟩
      obtain ⟨hk, hv⟩ := hkh
      subst hk; subst hv
      simp [recordFirst, hs, mapFind]
    · have hfil : List.filter (fun p => p.2.session == sess) ((k, v) :: rest)
          = List.filter (fun p => p.2.session == sess) rest := by
        simp [List.filter_cons, hs]
      rw [hfil] at huniq
      have hmem : (h, t) ∈ rest := by
        have : (h, t) ∈ List.filter (fun p => p.2.session == sess) rest := by
          rw [huniq]; exact List.mem_cons_self _ _
        exact List.mem_of_mem_filter this
      have hkh : k ≠ h := by
        intro he
        subst he
        exact hnodup.1 (List.mem_map.mpr ⟨(k, t), hmem, rfl⟩)
      have ih' := ih huniq hnodup.2
      simpa [recordFirst, hs, mapFind, hkh] using ih'

/-! ### Closed forms for iterated `AddRequest` -/

theorem runAdds_noWrap : ∀ (n : Nat) (s : ClientState),
    s.counter + n < 2 ^ 32 → (∀ p ∈ s.handles, p.1 ≤ s.counter) →
    (HttpClient.runAdds n s).2 = (List.range n).map (fun i => s.counter + i + 1) ∧
    (HttpClient.runAdds n s).1.counter = s.counter + n ∧
    (HttpClient.runAdds n s).1.handles.length = s.handles.length + n := by
  intro n
  induction n with
  | zero =>
    intro s _ _
    exact ⟨rfl, rfl, rfl⟩
  | succ n ih =>
    intro s hc hk
    have hlt : s.counter + 1 < 2 ^ 32 := by omega
    have hmod : (s.counter + 1) % 2 ^ 32 = s.counter + 1 := Nat.mod_eq_of_lt hlt
    have hins : mapInsert (s.counter + 1) (HttpTransaction.create s.nextSession) s.handles
        = s.handles ++ [(s.counter + 1, HttpTransaction.create s.nextSession)] :=
      mapInsert_append _ _ _ (fun p hp => Nat.lt_succ_of_le (hk p hp))
    have hAdd : HttpClient.AddRequest s =
        (s.counter + 1,
          { counter := s.counter + 1
            nextSession := s.nextSession + 1
            handles := s.handles ++ [(s.counter + 1, HttpTransaction.create s.nextSession)] }) := by
      simp only [HttpClient.AddRequest, HttpClient.createHandle]
      rw [hmod, hins]
    have hrun : HttpClient.runAdds (n + 1) s =
        ((HttpClient.runAdds n (HttpClient.AddRequest s).2).1,
          (HttpClient.AddRequest s).1 :: (HttpClient.runAdds n (HttpClient.AddRequest s).2).2) :=
      rfl
    have hfst : (HttpClient.AddRequest s).1 = s.counter + 1 := by rw [hAdd]
    have hcnt : (HttpClient.AddRequest s).2.counter = s.counter + 1 := by rw [hAdd]
    have hhs : (HttpClient.AddRequest s).2.handles
        = s.handles ++ [(s.counter + 1, HttpTransaction.create s.nextSession)] := by rw [hAdd]
    have hc' : (HttpClient.AddRequest s).2.counter + n < 2 ^ 32 := by rw [hcnt]; omega
    have hk' : ∀ p ∈ (HttpClient.AddRequest s).2.handles,
        p.1 ≤ (HttpClient.AddRequest s).2.counter := by
      rw [hcnt, hhs]
      intro p hp
      rcases List.mem_append.mp hp with hmem | hmem
      · exact Nat.le_succ_of_le (hk p hmem)
      · rw [List.mem_singleton] at hmem
        subst hmem
        exact Nat.le_refl _
    obtain ⟨h1, h2, h3⟩ := ih _ hc' hk'
    rw [hcnt] at h1 h2
    rw [hhs] at h3
    refine ⟨?_, ?_, ?_⟩
    · rw [hrun]
      simp only []
      rw [hfst, h1, List.range_succ_eq_map, List.map_cons, List.map_map]
      refine congrArg₂ _ (by omega) ?_
      refine List.map_congr_left ?_
      intro i _
      simp only [Function.comp]
      omega
    · rw [hrun]
      simp only []
      rw [h2]
      omega
    · rw [hrun]
      simp only []
      rw [h3, List.length_append, List.length_singleton]
      omega

theorem runOps_replicate_addReq_counter : ∀ (k : Nat) (s : ClientState),
    s.counter < 2 ^ 32 →
    (runOps s (List.replicate k Op.addReq)).counter = (s.counter + k) % 2 ^ 32 ∧
    (runOps s (List.replicate k Op.addReq)).counter < 2 ^ 32 := by
  intro k
  induction k with
  | zero =>
    intro s hc
    simpa [runOps] using ⟨(Nat.mod_eq_of_lt hc).symm, hc⟩
  | succ k ih =>
    intro s hc
    have hstep : runOps s (List.replicate (k + 1) Op.addReq)
        = runOps (stepOp s Op.addReq) (List.replicate k Op.addReq) := by
      rw [List.replicate_succ]; rfl
    have hcounter : (stepOp s Op.addReq).counter = (s.counter + 1) % 2 ^ 32 := rfl
    have hlt : (stepOp s Op.addReq).counter < 2 ^ 32 := by
      rw [hcounter]; exact Nat.mod_lt _ (by norm_num)
    obtain ⟨h1, h2⟩ := ih (stepOp s Op.addReq) hlt
    rw [hstep]
    refine ⟨?_, h2⟩
    rw [h1, hcounter, Nat.mod_add_mod]
    ring_nf

theorem runOps_replicate_addReq_find : ∀ (k : Nat) (s : ClientState) (h : Nat),
    s.counter < 2 ^ 32 →
    (∀ j, 1 ≤ j → j ≤ k → (s.counter + j) % 2 ^ 32 ≠ h) →
    mapFind h (runOps s (List.replicate k Op.addReq)).handles = mapFind h s.handles := by
  intro k
  induction k with
  | zero => intro s h _ _; rfl
  | succ k ih =>
    intro s h hc hne
    have hstep : runOps s (List.replicate (k + 1) Op.addReq)
        = runOps (stepOp s Op.addReq) (List.replicate k Op.addReq) := by
      rw [List.replicate_succ]; rfl
    have hhandles : (stepOp s Op.addReq).handles
        = mapInsert ((s.counter + 1) % 2 ^ 32) (HttpTransaction.create s.nextSession) s.handles :=
      rfl
    have hcounter : (stepOp s Op.addReq).counter = (s.counter + 1) % 2 ^ 32 := rfl
    have hlt : (stepOp s Op.addReq).counter < 2 ^ 32 := by
      rw [hcounter]; exact Nat.mod_lt _ (by norm_num)
    rw [hstep, ih (stepOp s Op.addReq) h hlt (by
      intro j hj1 hjk
      rw [hcounter, Nat.mod_add_mod]
      have := hne (j + 1) (by omega) (by omega)
      simpa [show s.counter + 1 + j = s.counter + (j + 1) from by omega] using this)]
    rw [hhandles, mapFind_insert_ne _ _ _ _ (hne 1 (by omega) (by omega))]

/-! ### Termination of the retry-loop allocator -/

theorem createHandleLoop_some : ∀ (fuel lock : Nat), lock < HC.wrapBound →
    (if lock = 0 then 1 else HC.wrapBound + 1 - lock) ≤ fuel →
    (HC.createHandleLoop fuel lock).isSome = true := by
  intro fuel
  induction fuel with
  | zero =>
    intro lock _ hb
    have h1 : (1 : Nat) ≤ if lock = 0 then 1 else HC.wrapBound + 1 - lock := by
      split
      · omega
      · have : lock < HC.wrapBound := by assumption
        omega
    omega
  | succ fuel ih =>
    intro lock hlock hb
    by_cases h0 : lock = 0
    · simp [HC.createHandleLoop, h0]
    · have hone : HC.createHandleLoop (fuel + 1) lock
          = HC.createHandleLoop fuel ((lock + 1) % HC.wrapBound) := by
        simp [HC.createHandleLoop, h0]
      rw [hone]
      by_cases hw : lock + 1 = HC.wrapBound
      · rw [hw, Nat.mod_self]
        refine ih 0 (by norm_num [HC.wrapBound]) ?_
        have : HC.wrapBound + 1 - lock ≤ fuel + 1 := by simpa [h0] using hb
        have hlk : lock = HC.wrapBound - 1 := by omega
        simp only [if_pos rfl]
        norm_num [HC.wrapBound] at hlk ⊢
        omega
      · have hlt1 : lock + 1 < HC.wrapBound := by omega
        rw [Nat.mod_eq_of_lt hlt1]
        refine ih (lock + 1) hlt1 ?_
        have hne : lock + 1 ≠ 0 := by omega
        have : HC.wrapBound + 1 - lock ≤ fuel + 1 := by simpa [h0] using hb
        simp only [if_neg hne]
        omega

theorem createHandleLoop_result_lt : ∀ (fuel lock r l' : Nat),
    HC.createHandleLoop fuel lock = some (r, l') → r < HC.wrapBound := by
  intro fuel
  induction fuel with
  | zero => intro lock r l' h; simp [HC.createHandleLoop] at h
  | succ fuel ih =>
    intro lock r l' h
    by_cases h0 : lock = 0
    · simp [HC.createHandleLoop, h0] at h
      rw [← h.1]
      exact Nat.mod_lt _ (by norm_num [HC.wrapBound])
    · simp only [HC.createHandleLoop, if_neg h0] at h
      exact ih _ _ _ h

/-! ### The double-buffer invariant of `RequestUpdate` -/

theorem runR_updating_nil {α : Type} (pred : α → α → Prop) [DecidableRel pred] :
    ∀ (ops : List (RequestUpdate.ROp α)) (s : RequestUpdate α),
      s.updatingRequests = [] →
      (RequestUpdate.runR pred s ops).updatingRequests = [] := by
  intro ops
  induction ops with
  | nil => intro s hs; exact hs
  | cons op rest ih =>
    intro s hs
    cases op with
    | add a => exact ih _ (by simpa [RequestUpdate.AddRequest] using hs)
    | update => exact ih _ rfl

/-! ### Claims -/

/-- Claim C1 (code bug): the claim states that the completion callback of a
submitted transaction is invoked at most once over the whole run, no
matter how many data chunks the engine reports.  The code violates this:
`HttpClient::_OnResponse` is installed as the curl *write* callback, so
it runs once per received data chunk and each run calls
`HttpTransaction::OnResponse`, which invokes the stored callback.  Here a
single transaction (handle 1, session 0) whose response arrives in two
chunks during one `Update` has its callback invoked exactly twice. -/
theorem C1_two_chunks_fire_callback_twice :
    (mapFind 1 (HttpClient.Update (HttpClient.AddRequest ClientState.init).2
        [(0, 3), (0, 4)] [(0, CURLcode.ok)]).handles).map
      (fun t => t.callbackLog.length) = some 2 := by decide

/-- Claim C2 (counterexample): the claim states that in no reachable state
does `IsCompleted()` return true for a transaction whose callback has
not yet run to completion.  False: `OnResponse` assigns
`m_RequestResult` (line 73) *before* invoking the callback (line 75),
and `IsCompleted()` reads `m_RequestResult`, so at the program point
between those two lines — a state `OnResponse` itself passes through,
witnessed by the third conjunct — `IsCompleted()` is already true while
the callback has run zero times. -/
theorem C2_completed_before_callback_counterexample :
    HttpTransaction.IsCompleted
        ((HttpTransaction.create 0).setRequestResult CURLcode.ok) = true ∧
    ((HttpTransaction.create 0).setRequestResult CURLcode.ok).callbackLog = [] ∧
    (HttpTransaction.create 0).OnResponse 3 CURLcode.ok
      = (((HttpTransaction.create 0).setRequestResult CURLcode.ok).invokeCallback 3).setCompleted
    := by
  exact ⟨rfl, rfl, rfl⟩

/-- Claim C2 (amended): recording an outcome stores the outcome code before
invoking the callback and flips the `m_Completed` flag only after the
callback returns — so the *flag* ordering of the spec holds — but
`IsCompleted()` reads the outcome code, not the flag, hence
`IsCompleted()` already answers true from the moment the outcome is
stored, before and during the callback invocation rather than only
after it. -/
theorem C2_amended_result_set_before_callback (t : HttpTransaction) (sz : Nat)
    (result : CURLcode) (hr : result ≠ CURLcode.last) :
    t.OnResponse sz result = ((t.setRequestResult result).invokeCallback sz).setCompleted ∧
    HttpTransaction.IsCompleted (t.setRequestResult result) = true ∧
    (t.setRequestResult result).callbackLog = t.callbackLog ∧
    ((t.setRequestResult result).invokeCallback sz).completed = t.completed ∧
    ((t.setRequestResult result).invokeCallback sz).callbackLog
      = t.callbackLog ++ [(result, sz)] ∧
    (t.OnResponse sz result).completed = true := by
  refine ⟨rfl, ?_, rfl, rfl, rfl, rfl⟩
  simp [HttpTransaction.IsCompleted, HttpTransaction.setRequestResult, hr]

/-- Witness for the amended C2 theorem at a concrete transaction. -/
theorem C2_amended_result_set_before_callback_witness :
    CURLcode.ok ≠ CURLcode.last ∧
    HttpTransaction.IsCompleted
      ((HttpTransaction.create 0).setRequestResult CURLcode.ok) = true :=
  ⟨by decide,
    (C2_amended_result_set_before_callback (HttpTransaction.create 0) 3 CURLcode.ok
      (by decide)).2.1⟩

/-- Claim C3 (counterexample): the claim states that every finished-event
drained by an `Update` call, whatever its outcome code, has its outcome
recorded on the registered transaction.  False: the drain loop discards
success messages (part_001 lines 205-208, "成功なのでそのまま").  Here the
engine reports session 0 — owned by the registered pending transaction
at handle 1 — finished with `CURLE_OK`, and `Update` records nothing:
the state is unchanged and the transaction's outcome is still the
`CURL_LAST` pending marker. -/
theorem C3_ok_event_not_recorded_counterexample :
    HttpClient.Update (HttpClient.AddRequest ClientState.init).2 [] [(0, CURLcode.ok)]
      = (HttpClient.AddRequest ClientState.init).2 ∧
    (mapFind 1 (HttpClient.Update (HttpClient.AddRequest ClientState.init).2
        [] [(0, CURLcode.ok)]).handles).map HttpTransaction.requestResult
      = some CURLcode.last := by decide

/-- Claim C3 (amended): `Update` resolves a drained finished-event to its
transaction via the registry and records the outcome there *only for
events whose outcome is not `CURLE_OK`*; success events are discarded
without touching any transaction (on the success path completion is
signalled through the data-write callback instead).  For a non-success
event whose session belongs to exactly one registered transaction, that
transaction gets the event's outcome code recorded and its callback
invoked once with it. -/
theorem C3_amended_failure_events_recorded (s : ClientState) (sess : Nat) (code : CURLcode)
    (h : Nat) (t : HttpTransaction)
    (hcode : code ≠ CURLcode.ok)
    (huniq : s.handles.filter (fun p => p.2.session == sess) = [(h, t)])
    (hnodup : (s.handles.map Prod.fst).Nodup) :
    mapFind h (HttpClient.Update s [] [(sess, code)]).handles = some (t.OnResponse 0 code) ∧
    (t.OnResponse 0 code).requestResult = code ∧
    (t.OnResponse 0 code).callbackLog = t.callbackLog ++ [(code, 0)] ∧
    HttpClient.Update s [] [(sess, CURLcode.ok)] = s := by
  have hupd : HttpClient.Update s [] [(sess, code)]
      = { s with handles := recordFirst sess 0 code s.handles } := by
    simp [HttpClient.Update, HttpClient.drainMsg, hcode]
  refine ⟨?_, rfl, rfl, ?_⟩
  · rw [hupd]
    exact recordFirst_of_unique sess 0 code s.handles h t huniq hnodup
  · simp [HttpClient.Update, HttpClient.drainMsg]

/-- Witness for the amended C3 theorem: one registered pending transaction
(session 0, handle 1); the engine reports a timeout for session 0 and the
single `Update` records it and fires the callback with it. -/
theorem C3_amended_failure_events_recorded_witness :
    CURLcode.timedout ≠ CURLcode.ok ∧
    mapFind 1 (HttpClient.Update (HttpClient.AddRequest ClientState.init).2
        [] [(0, CURLcode.timedout)]).handles
      = some ((HttpTransaction.create 0).OnResponse 0 CURLcode.timedout) :=
  ⟨by decide,
    (C3_amended_failure_events_recorded (HttpClient.AddRequest ClientState.init).2 0
      CURLcode.timedout 1 (HttpTransaction.create 0) (by decide) (by decide) (by decide)).1⟩

/-- Claim C4 (confirmed): for every handle value not currently present in
the registry — never issued, already released, or the invalid sentinel —
`HttpClient::IsCompleted` returns true (part_001 lines 273-277: a
missing handle may already have finished and been deleted, so "unknown"
is treated as "done"). -/
theorem C4_unknown_handle_reports_completed (s : ClientState) (h : Nat)
    (hfind : mapFind h s.handles = none) :
    HttpClient.IsCompleted s h = true := by
  simp [HttpClient.IsCompleted, hfind]

/-- Witness for C4: on a fresh client the invalid sentinel handle is absent
and `IsCompleted` reports true for it. -/
theorem C4_unknown_handle_reports_completed_witness :
    mapFind HttpTransactionHandle.INVALID_HANDLE_ID ClientState.init.handles = none ∧
    HttpClient.IsCompleted ClientState.init HttpTransactionHandle.INVALID_HANDLE_ID = true :=
  ⟨rfl, C4_unknown_handle_reports_completed ClientState.init
    HttpTransactionHandle.INVALID_HANDLE_ID rfl⟩

/-- Claim C6 (confirmed): `ReleaseTransaction` removes and destroys the
transaction and returns true when the handle is present; on an absent
handle it returns false and leaves the state unchanged; and a second
call on the same handle always returns false and changes nothing. -/
theorem C6_release_present_absent_idempotent (s : ClientState) (h : Nat) :
    ((mapFind h s.handles).isSome = true →
      (HttpClient.ReleaseTransaction s h).1 = true ∧
      mapFind h (HttpClient.ReleaseTransaction s h).2.handles = none) ∧
    (mapFind h s.handles = none →
      (HttpClient.ReleaseTransaction s h).1 = false ∧
      (HttpClient.ReleaseTransaction s h).2 = s) ∧
    (HttpClient.ReleaseTransaction (HttpClient.ReleaseTransaction s h).2 h).1 = false ∧
    (HttpClient.ReleaseTransaction (HttpClient.ReleaseTransaction s h).2 h).2
      = (HttpClient.ReleaseTransaction s h).2 := by
  rcases hfind : mapFind h s.handles with _ | t
  · refine ⟨fun hsome => by simp [hfind] at hsome, fun _ => ?_, ?_, ?_⟩
    · simp [HttpClient.ReleaseTransaction, hfind]
    · simp [HttpClient.ReleaseTransaction, hfind]
    · simp [HttpClient.ReleaseTransaction, hfind]
  · have hrel : HttpClient.ReleaseTransaction s h
        = (true, { s with handles := mapErase h s.handles }) := by
      simp [HttpClient.ReleaseTransaction, hfind]
    have hgone : mapFind h ({ s with handles := mapErase h s.handles } :
        ClientState).handles = none := mapFind_erase_self h s.handles
    refine ⟨fun _ => ⟨by rw [hrel], by rw [hrel]; exact hgone⟩, fun hnone => ?_, ?_, ?_⟩
    · exact absurd hnone (by simp)
    · rw [hrel]
      simp [HttpClient.ReleaseTransaction, hgone]
    · rw [hrel]
      simp [HttpClient.ReleaseTransaction, hgone]

/-- Witness for C6: one registered transaction at handle 1; the first
release succeeds and erases it, the second release returns false. -/
theorem C6_release_present_absent_idempotent_witness :
    (mapFind 1 (HttpClient.AddRequest ClientState.init).2.handles).isSome = true ∧
    (HttpClient.ReleaseTransaction (HttpClient.AddRequest ClientState.init).2 1).1 = true ∧
    mapFind 1 (HttpClient.ReleaseTransaction
      (HttpClient.AddRequest ClientState.init).2 1).2.handles = none ∧
    (HttpClient.ReleaseTransaction (HttpClient.ReleaseTransaction
      (HttpClient.AddRequest ClientState.init).2 1).2 1).1 = false :=
  ⟨by decide,
    ((C6_release_present_absent_idempotent (HttpClient.AddRequest ClientState.init).2 1).1
      (by decide)).1,
    ((C6_release_present_absent_idempotent (HttpClient.AddRequest ClientState.init).2 1).1
      (by decide)).2,
    (C6_release_present_absent_idempotent (HttpClient.AddRequest ClientState.init).2 1).2.2.1⟩

/-! ### Characterizations of `HttpClient.IsCompleted` -/

theorem IsCompleted_false_iff (s : ClientState) (h : Nat) :
    HttpClient.IsCompleted s h = false ↔
      ∃ t, mapFind h s.handles = some t ∧ t.requestResult = CURLcode.last := by
  unfold HttpClient.IsCompleted
  rcases hf : mapFind h s.handles with _ | t
  · simp
  · simp [HttpTransaction.IsCompleted]

theorem IsCompleted_true_iff (s : ClientState) (h : Nat) :
    HttpClient.IsCompleted s h = true ↔
      mapFind h s.handles = none ∨
        ∃ t, mapFind h s.handles = some t ∧ t.requestResult ≠ CURLcode.last := by
  unfold HttpClient.IsCompleted
  rcases hf : mapFind h s.handles with _ | t
  · simp
  · simp [HttpTransaction.IsCompleted]

/-- Claim C7 (confirmed): every allocator call returns a value distinct
from all previously returned ones until the counter wraps, and N
`AddRequest` calls (N below the 32-bit wrap bound) from a fresh client
yield the pairwise-distinct handles 1..N with the registry holding N
entries before any release. -/
theorem C7_n_adds_distinct_handles (N : Nat) (hN : N < 2 ^ 32) :
    (HttpClient.runAdds N ClientState.init).2 = (List.range N).map (fun i => i + 1) ∧
    ((HttpClient.runAdds N ClientState.init).2).Nodup ∧
    ((HttpClient.runAdds N ClientState.init).2).length = N ∧
    ((HttpClient.runAdds N ClientState.init).1.handles).length = N := by
  obtain ⟨h1, _, h3⟩ := runAdds_noWrap N ClientState.init
    (by show 0 + N < 2 ^ 32; omega)
    (by intro p hp; exact absurd hp (List.not_mem_nil p))
  have hfun : (fun i => ClientState.init.counter + i + 1) = (fun i : Nat => i + 1) :=
    funext fun i => by show 0 + i + 1 = i + 1; omega
  rw [hfun] at h1
  refine ⟨h1, ?_, ?_, ?_⟩
  · rw [h1]
    exact List.Nodup.map (fun a b hab => by omega) (List.nodup_range N)
  · rw [h1, List.length_map, List.length_range]
  · rw [h3]
    show ([] : List (Nat × HttpTransaction)).length + N = N
    simp

/-- Witness for C7 at three submissions: the issued handles are nodup. -/
theorem C7_n_adds_distinct_handles_witness :
    (3 : Nat) < 2 ^ 32 ∧ ((HttpClient.runAdds 3 ClientState.init).2).Nodup :=
  ⟨by norm_num, (C7_n_adds_distinct_handles 3 (by norm_num)).2.1⟩

/-- Claim C8 (counterexample): the claim states `AddRequest` never returns
the invalid sentinel `UINT32_MAX`.  False for the part_001 allocator:
`_CreateHandle` marches the 32-bit counter 1, 2, 3, ... so the
(2^32 - 1)-th `AddRequest` call returns exactly
`UINT32_MAX = INVALID_HANDLE_ID`. -/
theorem C8_sentinel_issued_counterexample :
    HttpTransactionHandle.INVALID_HANDLE_ID
      ∈ (HttpClient.runAdds (2 ^ 32 - 1) ClientState.init).2 := by
  obtain ⟨h1, _, _⟩ := runAdds_noWrap (2 ^ 32 - 1) ClientState.init
    (by show 0 + (2 ^ 32 - 1) < 2 ^ 32; omega)
    (by intro p hp; exact absurd hp (List.not_mem_nil p))
  rw [h1]
  refine List.mem_map.mpr ⟨2 ^ 32 - 2, List.mem_range.mpr (by omega), ?_⟩
  show 0 + (2 ^ 32 - 2) + 1 = HttpTransactionHandle.INVALID_HANDLE_ID
  unfold HttpTransactionHandle.INVALID_HANDLE_ID
  omega

/-- Claim C8 (amended): for the part_001 registry client the handle
returned by `AddRequest` differs from the sentinel only during the first
2^32 - 2 calls (the next call returns exactly the sentinel, as the
counterexample shows); for the `src/httpclient` variant, whose allocator
reduces modulo `0xffffffff`, a successfully allocated handle is always
strictly below `UINT32_MAX` and hence never the sentinel value. -/
theorem C8_amended_sentinel_bounds (n : Nat) (hn : n < 2 ^ 32 - 1)
    (fuel lock r lock' : Nat)
    (hloop : HC.createHandleLoop fuel lock = some (r, lock')) :
    (∀ h ∈ (HttpClient.runAdds n ClientState.init).2,
      h ≠ HttpTransactionHandle.INVALID_HANDLE_ID) ∧
    r ≠ HttpTransactionHandle.INVALID_HANDLE_ID := by
  constructor
  · intro h hmem
    obtain ⟨h1, _, _⟩ := runAdds_noWrap n ClientState.init
      (by show 0 + n < 2 ^ 32; omega)
      (by intro p hp; exact absurd hp (List.not_mem_nil p))
    rw [h1] at hmem
    obtain ⟨i, hi, rfl⟩ := List.mem_map.mp hmem
    have hilt := List.mem_range.mp hi
    show ClientState.init.counter + i + 1 ≠ HttpTransactionHandle.INVALID_HANDLE_ID
    show 0 + i + 1 ≠ HttpTransactionHandle.INVALID_HANDLE_ID
    unfold HttpTransactionHandle.INVALID_HANDLE_ID
    omega
  · have := createHandleLoop_result_lt fuel lock r lock' hloop
    unfold HC.wrapBound at this
    unfold HttpTransactionHandle.INVALID_HANDLE_ID
    omega

/-- Witness for the amended C8 theorem: a single submission issues handle
1, which is not the sentinel; the httpclient retry loop from counter 0
returns handle 1 within one iteration, also not the sentinel. -/
theorem C8_amended_sentinel_bounds_witness :
    (1 : Nat) < 2 ^ 32 - 1 ∧ HC.createHandleLoop 1 0 = some (1, 1) ∧
    (1 : Nat) ∈ (HttpClient.runAdds 1 ClientState.init).2 ∧
    (1 : Nat) ≠ HttpTransactionHandle.INVALID_HANDLE_ID :=
  ⟨by norm_num, by decide, by decide,
    (C8_amended_sentinel_bounds 1 (by norm_num) 1 0 1 1 (by decide)).1 1 (by decide)⟩

/-- Claim C9 (confirmed): every `AddRequest` call of the
`src/httpclient/main.cpp` client terminates: its `_CreateHandle` retry
loop, whose body reads the counter, steps it modulo `0xffffffff`, and
exchanges, repeating while the exchanged-out previous value is nonzero,
exits after finitely many iterations from every reachable counter state
(every reachable `m_Lock` value is below `0xffffffff`): fuel
`0xffffffff + 1` always suffices. -/
theorem C9_addrequest_terminates (s : HC.State) (hlock : s.lock < HC.wrapBound) :
    (HC.AddRequest (HC.wrapBound + 1) s).isSome = true := by
  have hloop := createHandleLoop_some (HC.wrapBound + 1) s.lock hlock
    (by split <;> omega)
  obtain ⟨⟨r, l'⟩, hr⟩ := Option.isSome_iff_exists.mp hloop
  simp [HC.AddRequest, hr]

/-- Witness for C9 on the freshly constructed client. -/
theorem C9_addrequest_terminates_witness :
    HC.State.init.lock < HC.wrapBound ∧
    (HC.AddRequest (HC.wrapBound + 1) HC.State.init).isSome = true :=
  ⟨by decide, C9_addrequest_terminates HC.State.init (by decide)⟩

/-- Claim C10 (confirmed): under the `std::sort` precondition that the
registered predicate induces a total transitive comparison, one `Update`
of the double-buffered queue applies the executer to exactly the
requests added before the call (a permutation — each exactly once and
nothing else), in ascending order under the predicate, and removes them,
so an immediately following `Update` with no intervening `AddRequest`
applies the executer to nothing; the final conjunct shows every state
reachable from the fresh queue has an empty processing buffer, which is
the hypothesis `hupd`. -/
theorem C10_update_processes_batch {α : Type} (pred : α → α → Prop) [DecidableRel pred]
    (htot : ∀ a b, RequestUpdate.le pred a b ∨ RequestUpdate.le pred b a)
    (htrans : ∀ a b c, RequestUpdate.le pred a b → RequestUpdate.le pred b c →
      RequestUpdate.le pred a c)
    (s : RequestUpdate α) (hupd : s.updatingRequests = []) :
    (RequestUpdate.Update pred s).1.Perm s.requests ∧
    List.Sorted (RequestUpdate.le pred) (RequestUpdate.Update pred s).1 ∧
    (RequestUpdate.Update pred s).2.requests = [] ∧
    (RequestUpdate.Update pred (RequestUpdate.Update pred s).2).1 = [] ∧
    (∀ a, (RequestUpdate.AddRequest s a).requests = s.requests ++ [a]) ∧
    (∀ ops : List (RequestUpdate.ROp α),
      (RequestUpdate.runR pred RequestUpdate.init ops).updatingRequests = []) := by
  letI : IsTotal α (RequestUpdate.le pred) := ⟨htot⟩
  letI : IsTrans α (RequestUpdate.le pred) := ⟨htrans⟩
  refine ⟨List.perm_insertionSort _ _, List.sorted_insertionSort _ _, hupd, ?_, fun a => rfl,
    fun ops => runR_updating_nil pred ops _ rfl⟩
  show ((RequestUpdate.Update pred s).2.requests).insertionSort (RequestUpdate.le pred) = []
  show (s.updatingRequests).insertionSort (RequestUpdate.le pred) = []
  rw [hupd]
  rfl

/-- Witness for C10 mirroring the demo driver: requests 100, 200, 400,
100 with the less-than predicate are executed as 100, 100, 200, 400. -/
theorem C10_update_processes_batch_witness :
    (RequestUpdate.Update (fun a b : Nat => a < b)
      { requests := [100, 200, 400, 100], updatingRequests := [] }).1
      = [100, 100, 200, 400] ∧
    List.Sorted (RequestUpdate.le (fun a b : Nat => a < b))
      (RequestUpdate.Update (fun a b : Nat => a < b)
        { requests := [100, 200, 400, 100], updatingRequests := [] }).1 := by
  refine ⟨by decide, ?_⟩
  exact (C10_update_processes_batch (fun a b : Nat => a < b)
    (fun a b => by unfold RequestUpdate.le; omega)
    (fun a b c h1 h2 => by unfold RequestUpdate.le at h1 h2 ⊢; omega)
    { requests := [100, 200, 400, 100], updatingRequests := [] } rfl).2.1

theorem stepOp_addReq_handles (s : ClientState) :
    (stepOp s Op.addReq).handles
      = mapInsert ((s.counter + 1) % 2 ^ 32) (HttpTransaction.create s.nextSession) s.handles :=
  rfl

/-- Claim C5 (counterexample): the claim states that for a handle returned
by `AddRequest`, `IsCompleted` is false right after submission, becomes
true only when a later step records an outcome for that transaction, and
once true never reverts.  Two reachable runs refute it.  Conjuncts 1-3:
after a single submission (handle 1, still pending, its callback never
invoked — conjunct 2 shows the empty invocation log), releasing handle 1
makes `IsCompleted` report true although no outcome was ever recorded
(the not-found-means-done policy).  Conjuncts 4-5: after handle 1's
transaction completes, 2^32 - 1 further submissions wrap the 32-bit
allocator counter and one more `AddRequest` reissues handle 1, replacing
the completed transaction with a fresh pending one, so `IsCompleted`
reverts from true to false. -/
theorem C5_lifecycle_counterexample :
    HttpClient.IsCompleted (runOps ClientState.init [Op.addReq]) 1 = false ∧
    (mapFind 1 (runOps ClientState.init [Op.addReq]).handles).map
      HttpTransaction.callbackLog = some [] ∧
    HttpClient.IsCompleted (runOps ClientState.init [Op.addReq, Op.release 1]) 1 = true ∧
    HttpClient.IsCompleted (runOps ClientState.init [Op.addReq, Op.chunk 0 3]) 1 = true ∧
    HttpClient.IsCompleted
      (runOps ClientState.init ([Op.addReq, Op.chunk 0 3]
        ++ List.replicate (2 ^ 32 - 1) Op.addReq ++ [Op.addReq])) 1 = false := by
  refine ⟨by decide, by decide, by decide, by decide, ?_⟩
  have happ : runOps ClientState.init ([Op.addReq, Op.chunk 0 3]
      ++ List.replicate (2 ^ 32 - 1) Op.addReq ++ [Op.addReq])
      = stepOp (runOps (runOps ClientState.init [Op.addReq, Op.chunk 0 3])
          (List.replicate (2 ^ 32 - 1) Op.addReq)) Op.addReq := by
    unfold runOps
    rw [List.foldl_append, List.foldl_append]
    rfl
  rw [happ]
  have hc2 : (runOps ClientState.init [Op.addReq, Op.chunk 0 3]).counter = 1 := by decide
  obtain ⟨hcnt, -⟩ := runOps_replicate_addReq_counter (2 ^ 32 - 1)
    (runOps ClientState.init [Op.addReq, Op.chunk 0 3]) (by rw [hc2]; norm_num)
  have hcnt0 : (runOps (runOps ClientState.init [Op.addReq, Op.chunk 0 3])
      (List.replicate (2 ^ 32 - 1) Op.addReq)).counter = 0 := by
    rw [hcnt, hc2]
    have h1 : 1 + (2 ^ 32 - 1) = 2 ^ 32 := by norm_num
    rw [h1, Nat.mod_self]
  rw [IsCompleted_false_iff]
  refine ⟨HttpTransaction.create (runOps (runOps ClientState.init [Op.addReq, Op.chunk 0 3])
    (List.replicate (2 ^ 32 - 1) Op.addReq)).nextSession, ?_, rfl⟩
  rw [stepOp_addReq_handles, hcnt0]
  have hone : (0 + 1) % 2 ^ 32 = 1 := by norm_num
  rw [hone]
  exact mapFind_insert_self _ _ _

/-- Claim C5 (amended): for a valid event (the engine never reports
`CURL_LAST`): (1) immediately after `AddRequest` the issued handle
reports not-completed; (2) `IsCompleted h` can flip from false to true
only through a step that records an outcome on `h`'s transaction — a
data chunk or a finished message for the session registered at `h` — or
through a `ReleaseTransaction h` (release of a pending handle makes
`IsCompleted` report true under the not-found-means-done policy, even
though no outcome was recorded); (3) once `IsCompleted h` is true it
stays true across every step except an `AddRequest` that reissues the
same handle value `h` after the 32-bit allocator counter wraps
around. -/
theorem C5_amended_lifecycle (s : ClientState) (op : Op) (h : Nat) (hv : ValidOp op) :
    HttpClient.IsCompleted (stepOp s Op.addReq) (handleIssued s) = false ∧
    (HttpClient.IsCompleted s h = false → HttpClient.IsCompleted (stepOp s op) h = true →
      (∃ sess sz, op = Op.chunk sess sz ∧ sessionAt s h = some sess) ∨
      (∃ sess code, op = Op.msg sess code ∧ sessionAt s h = some sess) ∨
      op = Op.release h) ∧
    (HttpClient.IsCompleted s h = true → (op = Op.addReq → handleIssued s ≠ h) →
      HttpClient.IsCompleted (stepOp s op) h = true) := by
  have hHadd : (stepOp s Op.addReq).handles
      = mapInsert (handleIssued s) (HttpTransaction.create s.nextSession) s.handles := rfl
  refine ⟨?_, ?_, ?_⟩
  · rw [IsCompleted_false_iff]
    refine ⟨HttpTransaction.create s.nextSession, ?_, rfl⟩
    rw [hHadd]
    exact mapFind_insert_self _ _ _
  · intro hfalse htrue
    obtain ⟨t, hft, hlast⟩ := (IsCompleted_false_iff s h).mp hfalse
    cases op with
    | addReq =>
      exfalso
      by_cases heq : handleIssued s = h
      · have hfind : mapFind h (stepOp s Op.addReq).handles
            = some (HttpTransaction.create s.nextSession) := by
          rw [hHadd, ← heq]
          exact mapFind_insert_self _ _ _
        have hfalse' := (IsCompleted_false_iff (stepOp s Op.addReq) h).mpr
          ⟨HttpTransaction.create s.nextSession, hfind, rfl⟩
        rw [hfalse'] at htrue
        exact Bool.false_ne_true htrue
      · have hfalse' := (IsCompleted_false_iff (stepOp s Op.addReq) h).mpr
          ⟨t, by rw [hHadd, mapFind_insert_ne _ _ _ _ heq]; exact hft, hlast⟩
        rw [hfalse'] at htrue
        exact Bool.false_ne_true htrue
    | chunk sess sz =>
      have hH : (stepOp s (Op.chunk sess sz)).handles
          = recordFirst sess sz CURLcode.ok s.handles := rfl
      rcases recordFirst_find sess sz CURLcode.ok s.handles h with hsame | ⟨t', hft', hsess, _⟩
      · exfalso
        have hfalse' := (IsCompleted_false_iff (stepOp s (Op.chunk sess sz)) h).mpr
          ⟨t, by rw [hH, hsame]; exact hft, hlast⟩
        rw [hfalse'] at htrue
        exact Bool.false_ne_true htrue
      · exact Or.inl ⟨sess, sz, rfl, by simp [sessionAt, hft', hsess]⟩
    | msg sess code =>
      by_cases hok : code = CURLcode.ok
      · exfalso
        subst hok
        have hstep : stepOp s (Op.msg sess CURLcode.ok) = s := by
          simp [stepOp, HttpClient.drainMsg]
        rw [hstep, hfalse] at htrue
        exact Bool.false_ne_true htrue
      · have hH : (stepOp s (Op.msg sess code)).handles
            = recordFirst sess 0 code s.handles := by
          simp [stepOp, HttpClient.drainMsg, hok]
        rcases recordFirst_find sess 0 code s.handles h with hsame | ⟨t', hft', hsess, _⟩
        · exfalso
          have hfalse' := (IsCompleted_false_iff (stepOp s (Op.msg sess code)) h).mpr
            ⟨t, by rw [hH, hsame]; exact hft, hlast⟩
          rw [hfalse'] at htrue
          exact Bool.false_ne_true htrue
        · exact Or.inr (Or.inl ⟨sess, code, rfl,
            by simp [sessionAt, hft', hsess]⟩)
    | release h' =>
      rcases hf' : mapFind h' s.handles with _ | t''
      · exfalso
        have hstep : stepOp s (Op.release h') = s := by
          simp [stepOp, HttpClient.ReleaseTransaction, hf']
        rw [hstep, hfalse] at htrue
        exact Bool.false_ne_true htrue
      · by_cases heq : h' = h
        · exact Or.inr (Or.inr (by rw [heq]))
        · exfalso
          have hH : (stepOp s (Op.release h')).handles = mapErase h' s.handles := by
            simp [stepOp, HttpClient.ReleaseTransaction, hf']
          have hfalse' := (IsCompleted_false_iff (stepOp s (Op.release h')) h).mpr
            ⟨t, by rw [hH, mapFind_erase_ne _ _ _ (fun he => heq he.symm)]; exact hft, hlast⟩
          rw [hfalse'] at htrue
          exact Bool.false_ne_true htrue
  · intro htrue hne
    rcases (IsCompleted_true_iff s h).mp htrue with hnone | ⟨t, hft, hres⟩
    · cases op with
      | addReq =>
        refine (IsCompleted_true_iff _ h).mpr (Or.inl ?_)
        rw [hHadd, mapFind_insert_ne _ _ _ _ (hne rfl), hnone]
      | chunk sess sz =>
        have hH : (stepOp s (Op.chunk sess sz)).handles
            = recordFirst sess sz CURLcode.ok s.handles := rfl
        rcases recordFirst_find sess sz CURLcode.ok s.handles h with hsame | ⟨t', hft', _, _⟩
        · exact (IsCompleted_true_iff _ h).mpr (Or.inl (by rw [hH, hsame, hnone]))
        · rw [hnone] at hft'
          exact Option.noConfusion hft'
      | msg sess code =>
        by_cases hok : code = CURLcode.ok
        · subst hok
          have hstep : stepOp s (Op.msg sess CURLcode.ok) = s := by
            simp [stepOp, HttpClient.drainMsg]
          rw [hstep]
          exact htrue
        · have hH : (stepOp s (Op.msg sess code)).handles
              = recordFirst sess 0 code s.handles := by
            simp [stepOp, HttpClient.drainMsg, hok]
          rcases recordFirst_find sess 0 code s.handles h with hsame | ⟨t', hft', _, _⟩
          · exact (IsCompleted_true_iff _ h).mpr (Or.inl (by rw [hH, hsame, hnone]))
          · rw [hnone] at hft'
            exact Option.noConfusion hft'
      | release h' =>
        rcases hf' : mapFind h' s.handles with _ | t''
        · have hstep : stepOp s (Op.release h') = s := by
            simp [stepOp, HttpClient.ReleaseTransaction, hf']
          rw [hstep]
          exact htrue
        · have hH : (stepOp s (Op.release h')).handles = mapErase h' s.handles := by
            simp [stepOp, HttpClient.ReleaseTransaction, hf']
          by_cases heq : h' = h
          · refine (IsCompleted_true_iff _ h).mpr (Or.inl ?_)
            rw [hH, ← heq]
            exact mapFind_erase_self _ _
          · refine (IsCompleted_true_iff _ h).mpr (Or.inl ?_)
            rw [hH, mapFind_erase_ne _ _ _ (fun he => heq he.symm), hnone]
    · cases op with
      | addReq =>
        refine (IsCompleted_true_iff _ h).mpr (Or.inr ⟨t, ?_, hres⟩)
        rw [hHadd, mapFind_insert_ne _ _ _ _ (hne rfl)]
        exact hft
      | chunk sess sz =>
        have hH : (stepOp s (Op.chunk sess sz)).handles
            = recordFirst sess sz CURLcode.ok s.handles := rfl
        rcases recordFirst_find sess sz CURLcode.ok s.handles h with hsame | ⟨t', hft', _, hnew⟩
        · exact (IsCompleted_true_iff _ h).mpr (Or.inr ⟨t, by rw [hH, hsame]; exact hft, hres⟩)
        · refine (IsCompleted_true_iff _ h).mpr (Or.inr ⟨t'.OnResponse sz CURLcode.ok,
            by rw [hH]; exact hnew, ?_⟩)
          rw [OnResponse_requestResult]
          exact fun he => CURLcode.noConfusion he
      | msg sess code =>
        by_cases hok : code = CURLcode.ok
        · subst hok
          have hstep : stepOp s (Op.msg sess CURLcode.ok) = s := by
            simp [stepOp, HttpClient.drainMsg]
          rw [hstep]
          exact htrue
        · have hlastv : code ≠ CURLcode.last := hv
          have hH : (stepOp s (Op.msg sess code)).handles
              = recordFirst sess 0 code s.handles := by
            simp [stepOp, HttpClient.drainMsg, hok]
          rcases recordFirst_find sess 0 code s.handles h with hsame | ⟨t', hft', _, hnew⟩
          · exact (IsCompleted_true_iff _ h).mpr (Or.inr ⟨t, by rw [hH, hsame]; exact hft, hres⟩)
          · refine (IsCompleted_true_iff _ h).mpr (Or.inr ⟨t'.OnResponse 0 code,
              by rw [hH]; exact hnew, ?_⟩)
            rw [OnResponse_requestResult]
            exact hlastv
      | release h' =>
        rcases hf' : mapFind h' s.handles with _ | t''
        · have hstep : stepOp s (Op.release h') = s := by
            simp [stepOp, HttpClient.ReleaseTransaction, hf']
          rw [hstep]
          exact htrue
        · have hH : (stepOp s (Op.release h')).handles = mapErase h' s.handles := by
            simp [stepOp, HttpClient.ReleaseTransaction, hf']
          by_cases heq : h' = h
          · refine (IsCompleted_true_iff _ h).mpr (Or.inl ?_)
            rw [hH, ← heq]
            exact mapFind_erase_self _ _
          · refine (IsCompleted_true_iff _ h).mpr (Or.inr ⟨t, ?_, hres⟩)
            rw [hH, mapFind_erase_ne _ _ _ (fun he => heq he.symm)]
            exact hft

/-- Witness for the amended C5 theorem: a completed transaction at handle
1 stays completed across a drained timeout message for its session. -/
theorem C5_amended_lifecycle_witness :
    ValidOp (Op.msg 0 CURLcode.timedout) ∧
    HttpClient.IsCompleted (runOps ClientState.init [Op.addReq, Op.chunk 0 3]) 1 = true ∧
    HttpClient.IsCompleted
      (stepOp (runOps ClientState.init [Op.addReq, Op.chunk 0 3])
        (Op.msg 0 CURLcode.timedout)) 1 = true := by
  refine ⟨by decide, by decide, ?_⟩
  exact (C5_amended_lifecycle (runOps ClientState.init [Op.addReq, Op.chunk 0 3])
    (Op.msg 0 CURLcode.timedout) 1 (by decide)).2.2 (by decide)
    (fun hop => Op.noConfusion hop)
